import Mathlib

/-!
Shallow embedding of the element-caching subsystem of the `browser-use`
examples repository (files `examples/element_cache_demo/cache/element_cache.py`
and `examples/element_cache_demo/llm_ui_tester.py`).

Modelling conventions:
* Python `dict` values passed through JSON are modelled as association lists;
  the element map stored for one location is opaque to the cache, so it is a
  plain `List (String × ElementRecord)`.
* The durable layer is modelled as a map from cache key to file content; the
  MD5 filename step (`_get_cache_file`) is an injective renaming of the cache
  key, so files are indexed directly by cache key.
* `time.time()` is modelled by a session clock that advances by a
  caller-chosen non-negative amount on each write (wall clock assumed
  non-decreasing).
* Python exceptions that the source catches (file I/O and JSON faults) are
  modelled as explicit fault flags passed to each operation; the corresponding
  `except` branch of the source is the fault-taken branch of the definition.
-/

namespace BrowserCache

/-- One discovered DOM element as persisted by the cache demo
(`tag_name`, `xpath`, `attributes`, visibility/interactivity flags,
highlight index). -/
structure ElementRecord where
  tag_name : String
  xpath : String
  attributes : List (String × String)
  is_visible : Bool
  is_interactive : Bool
  is_in_viewport : Bool
  highlight_index : Nat
deriving DecidableEq, Repr

/-- The element map stored under one location key: index → record, as the
JSON object read from / written to one cache file. -/
abbrev ElementMap := List (String × ElementRecord)

/-- URL parameters: a Python `Dict[str, str]` as an association list. -/
abbrev Params := List (String × String)

/-- One metadata record kept per cache key by `ElementCache.store_elements`. -/
structure MetaRecord where
  url : String
  timestamp : Nat
  element_count : Nat
  version : Nat
deriving DecidableEq, Repr

/-- Python tuple comparison on `(key, value)` string pairs, as used by
`sorted(params.items())`: lexicographic on the pair, strings being compared
code point by code point (core `List.lt` on `String.data`). -/
def pLe (a b : String × String) : Prop :=
  List.lt a.1.data b.1.data ∨ (a.1.data = b.1.data ∧ ¬ List.lt b.2.data a.2.data)

instance pLe.decidableRel : DecidableRel pLe := fun a b =>
  @instDecidableOr _ _ (List.hasDecidableLt a.1.data b.1.data)
    (@instDecidableAnd _ _ (List.hasDecEq a.1.data b.1.data)
      (@instDecidableNot _ (List.hasDecidableLt b.2.data a.2.data)))

/-- Core `List.lt` on char lists agrees with the lexicographic strict order
of the ambient `LinearOrder (List Char)`. -/
theorem listLt_iff (x y : List Char) : List.lt x y ↔ x < y :=
  List.lt_iff_lex_lt x y

/-- Two strings with the same character data are equal. -/
theorem str_data_inj : ∀ {a b : String}, a.data = b.data → a = b
  | ⟨_⟩, ⟨_⟩, h => congrArg String.mk h

instance pLe.isTotal : IsTotal (String × String) pLe := by
  constructor
  intro a b
  unfold pLe
  simp only [listLt_iff]
  rcases lt_trichotomy a.1.data b.1.data with h | h | h
  · exact Or.inl (Or.inl h)
  · rcases le_total a.2.data b.2.data with h2 | h2
    · exact Or.inl (Or.inr ⟨h, not_lt_of_le h2⟩)
    · exact Or.inr (Or.inr ⟨h.symm, not_lt_of_le h2⟩)
  · exact Or.inr (Or.inl h)

instance pLe.isTrans : IsTrans (String × String) pLe := by
  constructor
  intro a b c hab hbc
  unfold pLe at hab hbc ⊢
  simp only [listLt_iff] at hab hbc ⊢
  rcases hab with h1 | ⟨h1, h1v⟩
  · rcases hbc with h2 | ⟨h2, _⟩
    · exact Or.inl (h1.trans h2)
    · exact Or.inl (h2 ▸ h1)
  · rcases hbc with h2 | ⟨h2, h2v⟩
    · exact Or.inl (h1 ▸ h2)
    · exact Or.inr ⟨h1.trans h2, not_lt.mpr ((not_lt.mp h1v).trans (not_lt.mp h2v))⟩

instance pLe.isAntisymm : IsAntisymm (String × String) pLe := by
  constructor
  rintro ⟨a1, a2⟩ ⟨b1, b2⟩ hab hba
  unfold pLe at hab hba
  simp only [listLt_iff] at hab hba
  rcases hab with h1 | ⟨h1, h1v⟩
  · rcases hba with h2 | ⟨h2, _⟩
    · exact absurd h2 (lt_asymm h1)
    · exact absurd h1 (h2 ▸ lt_irrefl b1.data)
  · rcases hba with h2 | ⟨_, h2v⟩
    · exact absurd h2 (h1 ▸ lt_irrefl a1.data)
    · have hv : a2 = b2 := str_data_inj (le_antisymm (not_lt.mp h1v) (not_lt.mp h2v))
      simp only [Prod.mk.injEq]
      exact ⟨str_data_inj h1, hv⟩

/-- `sorted(params.items())` of `_generate_cache_key`: the items sorted by
Python tuple comparison (any stable comparison sort gives this result, the
order being total and antisymmetric). -/
def sortedParams (ps : Params) : Params :=
  List.insertionSort pLe ps

/-- One serialized parameter, `f"{k}={v}"`. -/
def paramChunk (kv : String × String) : String :=
  kv.1 ++ "=" ++ kv.2

/-- Python `"&".join` on a list of strings. -/
def joinAmp : List String → String
  | [] => ""
  | [s] => s
  | s :: rest => s ++ "&" ++ joinAmp rest

/-- The `param_str` built by `_generate_cache_key` for a non-empty parameter
dict: `"&".join(f"{k}={v}" for k, v in sorted(params.items()))`. -/
def param_str (ps : Params) : String :=
  joinAmp ((sortedParams ps).map paramChunk)

/-- `ElementCache._generate_cache_key`: the URL itself when `params` is
`None` or empty (Python falsiness of `not params`), else
`f"{url}?{param_str}"`. -/
def generate_cache_key (url : String) (params : Option Params) : String :=
  match params with
  | none => url
  | some [] => url
  | some ps => url ++ "?" ++ param_str ps

/-- String-keyed finite map (a Python dict whose iteration order the spec
declares semantically irrelevant). -/
abbrev SMap (α : Type) := AList (fun _ : String => α)

/-- Keep only the entries whose key satisfies `p`. -/
def filterKeys (p : String → Bool) (m : SMap α) : SMap α :=
  ⟨m.entries.filter (fun e => p e.1), List.NodupKeys.sublist (List.filter_sublist _) m.nodupKeys⟩

/-- Faults injectable during `store_elements`: failure of the
`_save_metadata` file write, and failure of the per-key cache-file write
(each caught and logged by the source). -/
structure WriteFaults where
  metaSaveFails : Bool
  fileSaveFails : Bool
deriving DecidableEq, Repr

/-- Fault injectable during `get_elements`: the durable file exists but
`json.load` raises (corrupt or malformed content); the source catches it. -/
structure ReadFault where
  loadFails : Bool
deriving DecidableEq, Repr

/-- Faults injectable during per-key `clear_cache`: `_save_metadata` failure
and `os.remove` failure on the key's cache file. -/
structure EvictFaults where
  metaSaveFails : Bool
  fileRemoveFails : Bool
deriving DecidableEq, Repr

/-- Faults injectable during full `clear_cache`: `_save_metadata` failure,
the set of cache keys whose file deletion raises, and deletion failure of the
metadata file itself. -/
structure ClearAllFaults where
  metaSaveFails : Bool
  removeFails : List String
  metaRemoveFails : Bool
deriving DecidableEq, Repr

/-- State of one `ElementCache` instance plus its storage directory:
`cache` and `metadata` are the in-memory dicts, `files` the durable per-key
cache files (keyed by cache key, the MD5 filename being an injective
renaming), `metaFile` the durable `metadata.json` content, and `clock` the
current `time.time()` value. -/
structure ElementCache where
  cache : SMap ElementMap
  metadata : SMap MetaRecord
  files : SMap ElementMap
  metaFile : Option (SMap MetaRecord)
  clock : Nat

/-- A fresh `ElementCache` over an empty storage directory. -/
def initState : ElementCache :=
  { cache := ∅, metadata := ∅, files := ∅, metaFile := none, clock := 0 }

/-- `ElementCache.store_elements`: overwrite the in-memory entry, rebuild the
metadata record (`version` is previous version, defaulting to 0, plus 1;
`timestamp` is `time.time()`; `element_count` is `len(elements)`), persist
the metadata file, then persist the entry file; both persistence steps
swallow their faults. `tick` is the wall-clock advance since the previous
operation. -/
def store_elements (s : ElementCache) (url : String) (elements : ElementMap)
    (params : Option Params) (tick : Nat) (f : WriteFaults) : ElementCache :=
  let cache_key := generate_cache_key url params
  let now := s.clock + tick
  let meta : MetaRecord :=
    { url := url
      timestamp := now
      element_count := elements.length
      version := ((s.metadata.lookup cache_key).map MetaRecord.version).getD 0 + 1 }
  let metadata := s.metadata.insert cache_key meta
  { cache := s.cache.insert cache_key elements
    metadata := metadata
    files := if f.fileSaveFails then s.files else s.files.insert cache_key elements
    metaFile := if f.metaSaveFails then s.metaFile else some metadata
    clock := now }

/-- `ElementCache.get_elements`: serve the in-memory entry if present; else,
if a durable file exists, load it (a load fault is caught and the function
falls through to the empty result) and lazily populate the in-memory layer;
else return the empty map. Returns the result together with the next
state. -/
def get_elements (s : ElementCache) (url : String) (params : Option Params)
    (f : ReadFault) : ElementMap × ElementCache :=
  let cache_key := generate_cache_key url params
  match s.cache.lookup cache_key with
  | some elements => (elements, s)
  | none =>
    match s.files.lookup cache_key with
    | some elements =>
      if f.loadFails then ([], s)
      else (elements, { s with cache := s.cache.insert cache_key elements })
    | none => ([], s)

/-- `ElementCache.get_all_urls`: the `url` field of every metadata record. -/
def get_all_urls (s : ElementCache) : List String :=
  s.metadata.entries.map (fun e => e.2.url)

/-- `ElementCache.get_cache_info`: `metadata.get(cache_key, {})`, the empty
dict being `none`. -/
def get_cache_info (s : ElementCache) (url : String) (params : Option Params) :
    Option MetaRecord :=
  s.metadata.lookup (generate_cache_key url params)

/-- The `if url:` branch of `ElementCache.clear_cache` for a truthy `url`:
delete the in-memory entry, delete the metadata record (saving the metadata
file only when a record was present), then remove the durable file if it
exists (a removal fault is caught and logged). -/
def clear_cache_key (s : ElementCache) (url : String) (params : Option Params)
    (f : EvictFaults) : ElementCache :=
  let cache_key := generate_cache_key url params
  let cache := s.cache.erase cache_key
  let mp :=
    if (s.metadata.lookup cache_key).isSome then
      let m := s.metadata.erase cache_key
      (m, if f.metaSaveFails then s.metaFile else some m)
    else (s.metadata, s.metaFile)
  let files :=
    if (s.files.lookup cache_key).isSome then
      if f.fileRemoveFails then s.files else s.files.erase cache_key
    else s.files
  { cache := cache, metadata := mp.1, files := files, metaFile := mp.2
    clock := s.clock }

/-- The `else` branch of `ElementCache.clear_cache`: reset both in-memory
dicts, save the now-empty metadata file, then delete every `.json` file in
the storage directory (per-file removal faults are caught and the file
skipped; the metadata file itself is among the deleted files). -/
def clear_cache_all (s : ElementCache) (f : ClearAllFaults) : ElementCache :=
  let savedMeta : Option (SMap MetaRecord) :=
    if f.metaSaveFails then s.metaFile else some ∅
  { cache := ∅
    metadata := ∅
    files := filterKeys (fun k => f.removeFails.contains k) s.files
    metaFile := if f.metaRemoveFails then savedMeta else none
    clock := s.clock }

/-- `ElementCache.clear_cache`: Python dispatches on the truthiness of
`url`, so `None` and the empty string both select the clear-all branch. -/
def clear_cache (s : ElementCache) (url : Option String) (params : Option Params)
    (fk : EvictFaults) (fa : ClearAllFaults) : ElementCache :=
  match url with
  | some u => if u = "" then clear_cache_all s fa else clear_cache_key s u params fk
  | none => clear_cache_all s fa

/-- One public cache operation together with its injected faults. -/
inductive CacheOp where
  | store (url : String) (elements : ElementMap) (params : Option Params)
      (tick : Nat) (f : WriteFaults)
  | read (url : String) (params : Option Params) (f : ReadFault)
  | info (url : String) (params : Option Params)
  | clear (url : Option String) (params : Option Params)
      (fk : EvictFaults) (fa : ClearAllFaults)

/-- Apply one operation to the cache state. -/
def applyOp (s : ElementCache) : CacheOp → ElementCache
  | .store url elements params tick f => store_elements s url elements params tick f
  | .read url params f => (get_elements s url params f).2
  | .info _ _ => s
  | .clear url params fk fa => clear_cache s url params fk fa

/-- Run a sequence of operations from the fresh state. -/
def runOps (ops : List CacheOp) : ElementCache :=
  ops.foldl applyOp initState

/-- An operation carrying no injected storage fault. -/
def opFaultFree : CacheOp → Bool
  | .store _ _ _ _ f => !f.metaSaveFails && !f.fileSaveFails
  | .read _ _ f => !f.loadFails
  | .info _ _ => true
  | .clear _ _ fk fa =>
      !fk.metaSaveFails && !fk.fileRemoveFails && !fa.metaSaveFails &&
        fa.removeFails.isEmpty && !fa.metaRemoveFails

/-- Keeping only keys that satisfy a nowhere-true predicate empties the map. -/
theorem filterKeys_eq_empty {α : Type} {p : String → Bool} (m : SMap α)
    (h : ∀ k, p k = false) : filterKeys p m = ∅ := by
  apply AList.ext
  show (m.entries.filter _) = []
  rw [List.filter_eq_nil_iff]
  intro e _
  simp [h e.1]

/-- `store_elements` writes `elements` under the derived key in the
in-memory layer and touches no other in-memory entry. -/
theorem store_cache_lookup (s : ElementCache) (url : String) (e : ElementMap)
    (params : Option Params) (t : Nat) (f : WriteFaults) (k : String) :
    (store_elements s url e params t f).cache.lookup k =
      if k = generate_cache_key url params then some e else s.cache.lookup k := by
  by_cases hk : k = generate_cache_key url params
  · subst hk
    simp [store_elements, AList.lookup_insert]
  · simp [store_elements, hk, AList.lookup_insert_ne hk]

/-- The metadata record written by `store_elements`. -/
def storedMeta (s : ElementCache) (url : String) (e : ElementMap)
    (params : Option Params) (t : Nat) : MetaRecord :=
  { url := url
    timestamp := s.clock + t
    element_count := e.length
    version :=
      ((s.metadata.lookup (generate_cache_key url params)).map MetaRecord.version).getD 0 + 1 }

/-- `store_elements` rewrites exactly the derived key's metadata record. -/
theorem store_metadata_lookup (s : ElementCache) (url : String) (e : ElementMap)
    (params : Option Params) (t : Nat) (f : WriteFaults) (k : String) :
    (store_elements s url e params t f).metadata.lookup k =
      if k = generate_cache_key url params then some (storedMeta s url e params t)
      else s.metadata.lookup k := by
  by_cases hk : k = generate_cache_key url params
  · subst hk
    simp [store_elements, storedMeta, AList.lookup_insert]
  · simp [store_elements, hk, AList.lookup_insert_ne hk]

/-- When the entry-file write succeeds, `store_elements` rewrites exactly the
derived key's durable file. -/
theorem store_files_lookup (s : ElementCache) (url : String) (e : ElementMap)
    (params : Option Params) (t : Nat) (f : WriteFaults) (hf : f.fileSaveFails = false)
    (k : String) :
    (store_elements s url e params t f).files.lookup k =
      if k = generate_cache_key url params then some e else s.files.lookup k := by
  by_cases hk : k = generate_cache_key url params
  · subst hk
    simp [store_elements, hf, AList.lookup_insert]
  · simp [store_elements, hf, hk, AList.lookup_insert_ne hk]

/-- With or without a persistence fault, `store_elements` leaves every other
key's durable file alone. -/
theorem store_files_lookup_ne (s : ElementCache) (url : String) (e : ElementMap)
    (params : Option Params) (t : Nat) (f : WriteFaults) {k : String}
    (hk : k ≠ generate_cache_key url params) :
    (store_elements s url e params t f).files.lookup k = s.files.lookup k := by
  rcases hf : f.fileSaveFails with _ | _
  · simp [store_elements, hf, AList.lookup_insert_ne hk]
  · simp [store_elements, hf]

/-- A faulted entry-file write leaves the durable layer untouched. -/
theorem store_files_fault (s : ElementCache) (url : String) (e : ElementMap)
    (params : Option Params) (t : Nat) (f : WriteFaults) (hf : f.fileSaveFails = true) :
    (store_elements s url e params t f).files = s.files := by
  simp [store_elements, hf]

theorem store_clock (s : ElementCache) (url : String) (e : ElementMap)
    (params : Option Params) (t : Nat) (f : WriteFaults) :
    (store_elements s url e params t f).clock = s.clock + t := rfl

/-- `get_elements` on an in-memory hit returns the entry unchanged. -/
theorem get_elements_fst_hit (s : ElementCache) (url : String) (params : Option Params)
    (f : ReadFault) (e : ElementMap)
    (h : s.cache.lookup (generate_cache_key url params) = some e) :
    (get_elements s url params f).1 = e := by
  simp [get_elements, h]

/-- The state after `get_elements` is either unchanged, or the in-memory
layer was lazily populated from a durable file on an in-memory miss. -/
theorem get_elements_state_cases (s : ElementCache) (url : String)
    (params : Option Params) (f : ReadFault) :
    (get_elements s url params f).2 = s ∨
      ∃ e, s.cache.lookup (generate_cache_key url params) = none ∧
        s.files.lookup (generate_cache_key url params) = some e ∧ f.loadFails = false ∧
        (get_elements s url params f).2 =
          { s with cache := s.cache.insert (generate_cache_key url params) e } := by
  rcases hc : s.cache.lookup (generate_cache_key url params) with _ | e
  · rcases hfile : s.files.lookup (generate_cache_key url params) with _ | e2
    · left
      simp [get_elements, hc, hfile]
    · rcases hl : f.loadFails with _ | _
      · right
        refine ⟨e2, rfl, rfl, rfl, ?_⟩
        simp [get_elements, hc, hfile, hl]
      · left
        simp [get_elements, hc, hfile, hl]
  · left
    simp [get_elements, hc]

/-- `clear_cache_key` removes exactly the derived key's in-memory entry. -/
theorem clear_key_cache_lookup (s : ElementCache) (u : String) (params : Option Params)
    (f : EvictFaults) (k : String) :
    (clear_cache_key s u params f).cache.lookup k =
      if k = generate_cache_key u params then none else s.cache.lookup k := by
  by_cases hk : k = generate_cache_key u params
  · subst hk
    simp [clear_cache_key, AList.lookup_erase]
  · simp [clear_cache_key, hk, AList.lookup_erase_ne hk]

/-- `clear_cache_key` removes exactly the derived key's metadata record. -/
theorem clear_key_metadata_lookup (s : ElementCache) (u : String) (params : Option Params)
    (f : EvictFaults) (k : String) :
    (clear_cache_key s u params f).metadata.lookup k =
      if k = generate_cache_key u params then none else s.metadata.lookup k := by
  rcases hm : s.metadata.lookup (generate_cache_key u params) with _ | mrec <;>
    by_cases hk : k = generate_cache_key u params
  · subst hk
    simp [clear_cache_key, hm]
  · simp [clear_cache_key, hm, hk]
  · subst hk
    simp [clear_cache_key, hm, AList.lookup_erase]
  · simp [clear_cache_key, hm, hk, AList.lookup_erase_ne hk]

/-- A fault-free `clear_cache_key` removes exactly the derived key's durable
file. -/
theorem clear_key_files_lookup (s : ElementCache) (u : String) (params : Option Params)
    (f : EvictFaults) (hf : f.fileRemoveFails = false) (k : String) :
    (clear_cache_key s u params f).files.lookup k =
      if k = generate_cache_key u params then none else s.files.lookup k := by
  rcases hfile : s.files.lookup (generate_cache_key u params) with _ | e <;>
    by_cases hk : k = generate_cache_key u params
  · subst hk
    simp [clear_cache_key, hfile]
  · simp [clear_cache_key, hfile, hk]
  · subst hk
    simp [clear_cache_key, hfile, hf, AList.lookup_erase]
  · simp [clear_cache_key, hfile, hf, hk, AList.lookup_erase_ne hk]

/-- With or without a removal fault, `clear_cache_key` leaves every other
key's durable file alone. -/
theorem clear_key_files_lookup_ne (s : ElementCache) (u : String) (params : Option Params)
    (f : EvictFaults) {k : String} (hk : k ≠ generate_cache_key u params) :
    (clear_cache_key s u params f).files.lookup k = s.files.lookup k := by
  rcases hfile : s.files.lookup (generate_cache_key u params) with _ | e <;>
    rcases hf : f.fileRemoveFails with _ | _ <;>
    simp [clear_cache_key, hfile, hf, AList.lookup_erase_ne hk]

/-- `clear_cache_key` on a key with no durable file leaves the durable layer
untouched (the missing file is tolerated silently). -/
theorem clear_key_files_of_none (s : ElementCache) (u : String) (params : Option Params)
    (f : EvictFaults) (h : s.files.lookup (generate_cache_key u params) = none) :
    (clear_cache_key s u params f).files = s.files := by
  simp [clear_cache_key, h]

theorem clear_key_clock (s : ElementCache) (u : String) (params : Option Params)
    (f : EvictFaults) : (clear_cache_key s u params f).clock = s.clock := rfl

theorem clear_all_cache (s : ElementCache) (f : ClearAllFaults) :
    (clear_cache_all s f).cache = ∅ := rfl

theorem clear_all_metadata (s : ElementCache) (f : ClearAllFaults) :
    (clear_cache_all s f).metadata = ∅ := rfl

theorem clear_all_clock (s : ElementCache) (f : ClearAllFaults) :
    (clear_cache_all s f).clock = s.clock := rfl

/-- A full clear whose per-file deletions all succeed leaves no durable
cache file. -/
theorem clear_all_files_of_nil (s : ElementCache) (f : ClearAllFaults)
    (h : f.removeFails = []) : (clear_cache_all s f).files = ∅ := by
  rw [clear_cache_all]
  exact filterKeys_eq_empty _ (fun k => by rw [h]; rfl)

/-- The central consistency property of claim C2: a key has an in-memory
entry iff it has a metadata record iff it has a durable file. -/
def Consistent (s : ElementCache) : Prop :=
  ∀ k, ((s.cache.lookup k).isSome ↔ (s.metadata.lookup k).isSome) ∧
    ((s.metadata.lookup k).isSome ↔ (s.files.lookup k).isSome)

theorem consistent_init : Consistent initState := fun _ => ⟨Iff.rfl, Iff.rfl⟩

theorem consistent_step (s : ElementCache) (op : CacheOp)
    (hf : opFaultFree op = true) (h : Consistent s) : Consistent (applyOp s op) := by
  cases op with
  | store url elements params tick f =>
    simp only [opFaultFree, Bool.and_eq_true, Bool.not_eq_true'] at hf
    show Consistent (store_elements s url elements params tick f)
    intro k
    rw [store_cache_lookup, store_metadata_lookup,
      store_files_lookup s url elements params tick f hf.2]
    by_cases hk : k = generate_cache_key url params <;>
      simp only [hk, if_true, if_false, ite_true, ite_false]
    · exact ⟨Iff.rfl, Iff.rfl⟩
    · exact h k
  | read url params f =>
    rcases get_elements_state_cases s url params f with hcase | ⟨e, hc, hfile, _, hcase⟩
    · show Consistent (get_elements s url params f).2
      rw [hcase]
      exact h
    · exfalso
      have hfs : (s.files.lookup (generate_cache_key url params)).isSome = true := by
        rw [hfile]
        rfl
      have hms := (h (generate_cache_key url params)).2.mpr hfs
      have hcs := (h (generate_cache_key url params)).1.mpr hms
      rw [hc] at hcs
      simp at hcs
  | info url params =>
    exact h
  | clear url params fk fa =>
    simp only [opFaultFree, Bool.and_eq_true, Bool.not_eq_true', List.isEmpty_iff] at hf
    obtain ⟨⟨⟨⟨hf1, hf2⟩, hf3⟩, hf4⟩, hf5⟩ := hf
    have hall : Consistent (clear_cache_all s fa) := by
      intro k
      rw [clear_all_cache, clear_all_metadata, clear_all_files_of_nil s fa hf4]
      exact ⟨Iff.rfl, Iff.rfl⟩
    cases url with
    | none => exact hall
    | some u =>
      show Consistent (clear_cache s (some u) params fk fa)
      rw [clear_cache]
      by_cases hu : u = ""
      · simpa [hu] using hall
      · simp only [hu, if_false, ite_false]
        intro k
        rw [clear_key_cache_lookup, clear_key_metadata_lookup,
          clear_key_files_lookup s u params fk hf2]
        by_cases hk : k = generate_cache_key u params <;>
          simp only [hk, if_true, if_false, ite_true, ite_false]
        · exact ⟨Iff.rfl, Iff.rfl⟩
        · exact h k

theorem foldl_consistent : ∀ (ops : List CacheOp) (s : ElementCache),
    Consistent s → (∀ op ∈ ops, opFaultFree op = true) →
    Consistent (ops.foldl applyOp s)
  | [], _, hs, _ => hs
  | op :: ops, s, hs, hff =>
    foldl_consistent ops (applyOp s op)
      (consistent_step s op (hff op (by simp)) hs)
      (fun o ho => hff o (by simp [ho]))

/-- Every metadata timestamp is bounded by the current clock; this holds on
every reachable state, faults included. -/
def TimeBounded (s : ElementCache) : Prop :=
  ∀ k m, s.metadata.lookup k = some m → m.timestamp ≤ s.clock

theorem timeBounded_init : TimeBounded initState := by
  intro k m hm
  cases hm

theorem timeBounded_step (s : ElementCache) (op : CacheOp)
    (h : TimeBounded s) : TimeBounded (applyOp s op) := by
  cases op with
  | store url elements params tick f =>
    intro k m hm
    rw [show applyOp s (.store url elements params tick f) =
      store_elements s url elements params tick f from rfl] at hm ⊢
    rw [store_metadata_lookup] at hm
    rw [store_clock]
    by_cases hk : k = generate_cache_key url params
    · rw [if_pos hk] at hm
      cases hm
      exact le_refl _
    · rw [if_neg hk] at hm
      exact le_trans (h k m hm) (Nat.le_add_right _ _)
  | read url params f =>
    intro k m hm
    rcases get_elements_state_cases s url params f with hcase | ⟨e, _, _, _, hcase⟩ <;>
      rw [show applyOp s (.read url params f) = (get_elements s url params f).2 from rfl,
        hcase] at hm ⊢ <;>
      exact h k m hm
  | info url params =>
    exact h
  | clear url params fk fa =>
    have hall : TimeBounded (clear_cache_all s fa) := by
      intro k m hm
      rw [clear_all_metadata] at hm
      cases hm
    cases url with
    | none => exact hall
    | some u =>
      show TimeBounded (clear_cache s (some u) params fk fa)
      rw [clear_cache]
      by_cases hu : u = ""
      · simpa [hu] using hall
      · simp only [hu, if_false, ite_false]
        intro k m hm
        rw [clear_key_metadata_lookup] at hm
        rw [clear_key_clock]
        by_cases hk : k = generate_cache_key u params
        · rw [if_pos hk] at hm
          cases hm
        · rw [if_neg hk] at hm
          exact h k m hm

theorem foldl_timeBounded : ∀ (ops : List CacheOp) (s : ElementCache),
    TimeBounded s → TimeBounded (ops.foldl applyOp s)
  | [], _, hs => hs
  | op :: ops, s, hs =>
    foldl_timeBounded ops (applyOp s op) (timeBounded_step s op hs)

theorem runOps_timeBounded (ops : List CacheOp) : TimeBounded (runOps ops) :=
  foldl_timeBounded ops initState timeBounded_init

/-- Splitting at a separator absent from both prefixes is unambiguous. -/
theorem append_cons_inj {α : Type} {a : α} :
    ∀ (l₁ : List α) {l₂ r₁ r₂ : List α}, a ∉ l₁ → a ∉ l₂ →
      l₁ ++ a :: r₁ = l₂ ++ a :: r₂ → l₁ = l₂ ∧ r₁ = r₂ := by
  intro l₁
  induction l₁ with
  | nil =>
    intro l₂ r₁ r₂ h1 h2 h
    cases l₂ with
    | nil =>
      simp only [List.nil_append, List.cons.injEq] at h
      exact ⟨rfl, h.2⟩
    | cons b t =>
      rw [List.nil_append, List.cons_append] at h
      injection h with hb ht
      exact absurd (by rw [hb]; exact List.mem_cons_self b t) h2
  | cons c t ih =>
    intro l₂ r₁ r₂ h1 h2 h
    cases l₂ with
    | nil =>
      rw [List.nil_append, List.cons_append] at h
      injection h with hb ht
      exact absurd (List.mem_cons_self c t) (hb ▸ h1)
    | cons d t2 =>
      rw [List.cons_append, List.cons_append] at h
      injection h with hcd ht
      have h1' : a ∉ t := fun hx => h1 (List.mem_cons_of_mem c hx)
      have h2' : a ∉ t2 := fun hx => h2 (List.mem_cons_of_mem d hx)
      obtain ⟨he, hr⟩ := ih h1' h2' ht
      exact ⟨by rw [hcd, he], hr⟩

/-- `"&".join` at the level of character lists. -/
def joinAmpC : List (List Char) → List Char
  | [] => []
  | [c] => c
  | c :: rest => c ++ '&' :: joinAmpC rest

theorem joinAmp_data : ∀ l : List String, (joinAmp l).data = joinAmpC (l.map String.data)
  | [] => rfl
  | [s] => rfl
  | s :: s2 :: rest => by
    show (s ++ "&" ++ joinAmp (s2 :: rest)).data = s.data ++ '&' :: joinAmpC ((s2 :: rest).map String.data)
    rw [String.data_append, String.data_append, joinAmp_data (s2 :: rest)]
    simp

/-- Joining non-empty separator-free chunks with `&` is injective. -/
theorem joinAmpC_inj :
    ∀ (l₁ l₂ : List (List Char)), (∀ c ∈ l₁, c ≠ [] ∧ '&' ∉ c) →
      (∀ c ∈ l₂, c ≠ [] ∧ '&' ∉ c) → joinAmpC l₁ = joinAmpC l₂ → l₁ = l₂ := by
  intro l₁
  induction l₁ with
  | nil =>
    intro l₂ h1 h2 h
    cases l₂ with
    | nil => rfl
    | cons c cs =>
      exfalso
      cases cs with
      | nil => exact (h2 c (by simp)).1 h.symm
      | cons c2 cs2 =>
        rw [show joinAmpC ([] : List (List Char)) = [] from rfl,
          show joinAmpC (c :: c2 :: cs2) = c ++ '&' :: joinAmpC (c2 :: cs2) from rfl] at h
        have hlen := congrArg List.length h
        simp only [List.length_nil, List.length_append, List.length_cons] at hlen
        omega
  | cons c cs ih =>
    intro l₂ h1 h2 h
    cases l₂ with
    | nil =>
      exfalso
      cases cs with
      | nil => exact (h1 c (by simp)).1 (by simpa [joinAmpC] using h)
      | cons c2 cs2 =>
        rw [show joinAmpC ([] : List (List Char)) = [] from rfl,
          show joinAmpC (c :: c2 :: cs2) = c ++ '&' :: joinAmpC (c2 :: cs2) from rfl] at h
        have hlen := congrArg List.length h
        simp only [List.length_nil, List.length_append, List.length_cons] at hlen
        omega
    | cons d ds =>
      cases cs with
      | nil =>
        cases ds with
        | nil =>
          rw [show joinAmpC [c] = c from rfl, show joinAmpC [d] = d from rfl] at h
          rw [h]
        | cons d2 ds2 =>
          exfalso
          rw [show joinAmpC [c] = c from rfl,
            show joinAmpC (d :: d2 :: ds2) = d ++ '&' :: joinAmpC (d2 :: ds2) from rfl] at h
          exact (h1 c (by simp)).2 (h ▸ List.mem_append_right d (List.mem_cons_self _ _))
      | cons c2 cs2 =>
        cases ds with
        | nil =>
          exfalso
          rw [show joinAmpC [d] = d from rfl,
            show joinAmpC (c :: c2 :: cs2) = c ++ '&' :: joinAmpC (c2 :: cs2) from rfl] at h
          exact (h2 d (by simp)).2 (h ▸ List.mem_append_right c (List.mem_cons_self _ _))
        | cons d2 ds2 =>
          rw [show joinAmpC (c :: c2 :: cs2) = c ++ '&' :: joinAmpC (c2 :: cs2) from rfl,
            show joinAmpC (d :: d2 :: ds2) = d ++ '&' :: joinAmpC (d2 :: ds2) from rfl] at h
          obtain ⟨hcd, hrest⟩ :=
            append_cons_inj c (h1 c (by simp)).2 (h2 d (by simp)).2 h
          have := ih (d2 :: ds2) (fun x hx => h1 x (List.mem_cons_of_mem c hx))
            (fun x hx => h2 x (List.mem_cons_of_mem d hx)) hrest
          rw [hcd, this]

theorem paramChunk_data (kv : String × String) :
    (paramChunk kv).data = kv.1.data ++ '=' :: kv.2.data := by
  show (kv.1 ++ "=" ++ kv.2).data = _
  rw [String.data_append, String.data_append]
  simp

/-- A serialized `name=value` chunk is never empty and, for clean parameter
strings, never contains the `&` separator. -/
theorem paramChunk_clean {kv : String × String} (h1 : '&' ∉ kv.1.data)
    (h2 : '&' ∉ kv.2.data) :
    (paramChunk kv).data ≠ [] ∧ '&' ∉ (paramChunk kv).data := by
  rw [paramChunk_data]
  constructor
  · simp
  · intro hmem
    rcases List.mem_append.mp hmem with hx | hx
    · exact h1 hx
    · rcases List.mem_cons.mp hx with hx2 | hx2
      · cases hx2
      · exact h2 hx2

/-- `name=value` serialization is injective when the name is free of `=`. -/
theorem paramChunk_inj {p q : String × String} (hp : '=' ∉ p.1.data)
    (hq : '=' ∉ q.1.data) (h : paramChunk p = paramChunk q) : p = q := by
  have hd := congrArg String.data h
  rw [paramChunk_data, paramChunk_data] at hd
  obtain ⟨hkey, hval⟩ := append_cons_inj p.1.data hp hq hd
  obtain ⟨p1, p2⟩ := p
  obtain ⟨q1, q2⟩ := q
  simp only [Prod.mk.injEq]
  exact ⟨str_data_inj hkey, str_data_inj hval⟩

/-- A map along a function injective on the members determines the list. -/
theorem map_inj_mem {α β : Type} {f : α → β} :
    ∀ {l₁ l₂ : List α}, (∀ x ∈ l₁, ∀ y ∈ l₂, f x = f y → x = y) →
      l₁.map f = l₂.map f → l₁ = l₂ := by
  intro l₁
  induction l₁ with
  | nil =>
    intro l₂ _ h
    cases l₂ with
    | nil => rfl
    | cons b t => simp at h
  | cons a t ih =>
    intro l₂ hinj h
    cases l₂ with
    | nil => simp at h
    | cons b t2 =>
      simp only [List.map_cons, List.cons.injEq] at h
      have hab : a = b := hinj a (List.mem_cons_self a t) b (List.mem_cons_self b t2) h.1
      have ht : t = t2 := ih
        (fun x hx y hy => hinj x (List.mem_cons_of_mem a hx) y (List.mem_cons_of_mem b hy))
        h.2
      rw [hab, ht]

theorem sortedParams_perm (ps : Params) : List.Perm (sortedParams ps) ps :=
  List.perm_insertionSort pLe ps

theorem sortedParams_sorted (ps : Params) : List.Sorted pLe (sortedParams ps) :=
  List.sorted_insertionSort pLe ps

/-- Permuted parameter lists sort identically (the comparison being total,
transitive and antisymmetric). -/
theorem sortedParams_eq_of_perm {ps₁ ps₂ : Params} (h : List.Perm ps₁ ps₂) :
    sortedParams ps₁ = sortedParams ps₂ :=
  List.eq_of_perm_of_sorted
    ((sortedParams_perm ps₁).trans (h.trans (sortedParams_perm ps₂).symm))
    (sortedParams_sorted ps₁) (sortedParams_sorted ps₂)

theorem param_str_congr_perm {ps₁ ps₂ : Params} (h : List.Perm ps₁ ps₂) :
    param_str ps₁ = param_str ps₂ := by
  rw [param_str, param_str, sortedParams_eq_of_perm h]

/-- Cleanliness of a parameter list: no `&` anywhere and no `=` in names. -/
def CleanParams (ps : Params) : Prop :=
  ∀ p ∈ ps, '&' ∉ p.1.data ∧ '=' ∉ p.1.data ∧ '&' ∉ p.2.data

/-- For clean parameter lists the serialized `param_str` determines the
parameter list up to permutation. -/
theorem param_str_eq_iff {ps₁ ps₂ : Params} (hc₁ : CleanParams ps₁)
    (hc₂ : CleanParams ps₂) : param_str ps₁ = param_str ps₂ ↔ List.Perm ps₁ ps₂ := by
  constructor
  · intro h
    have hd := congrArg String.data h
    rw [param_str, param_str, joinAmp_data, joinAmp_data] at hd
    have hcond : ∀ ps : Params, CleanParams ps →
        ∀ c ∈ ((sortedParams ps).map paramChunk).map String.data, c ≠ [] ∧ '&' ∉ c := by
      intro ps hc c hcmem
      obtain ⟨sc, hsc, rfl⟩ := List.mem_map.mp hcmem
      obtain ⟨kv, hkv, rfl⟩ := List.mem_map.mp hsc
      have hkv' : kv ∈ ps := (sortedParams_perm ps).mem_iff.mp hkv
      obtain ⟨h1, _, h3⟩ := hc kv hkv'
      exact paramChunk_clean h1 h3
    have hmaps :=
      joinAmpC_inj _ _ (hcond ps₁ hc₁) (hcond ps₂ hc₂) hd
    have hchunks : (sortedParams ps₁).map paramChunk = (sortedParams ps₂).map paramChunk :=
      map_inj_mem (fun x _ y _ hxy => str_data_inj hxy) hmaps
    have hsorted : sortedParams ps₁ = sortedParams ps₂ := by
      apply map_inj_mem _ hchunks
      intro x hx y hy hxy
      have hx' : x ∈ ps₁ := (sortedParams_perm ps₁).mem_iff.mp hx
      have hy' : y ∈ ps₂ := (sortedParams_perm ps₂).mem_iff.mp hy
      exact paramChunk_inj (hc₁ x hx').2.1 (hc₂ y hy').2.1 hxy
    exact (sortedParams_perm ps₁).symm.trans (hsorted ▸ sortedParams_perm ps₂)
  · exact param_str_congr_perm

/-- A key with parameters is strictly longer than the bare URL. -/
theorem ne_append_param (url s : String) : url ≠ url ++ "?" ++ s := by
  intro h
  have hl := congrArg String.length h
  rw [String.length_append, String.length_append] at hl
  have h1 : ("?" : String).length = 1 := rfl
  omega

/-- The parameter serialization can be cancelled against the common
`url ++ "?"` prefix. -/
theorem append_param_inj {url a b : String} (h : url ++ "?" ++ a = url ++ "?" ++ b) :
    a = b := by
  have hd := congrArg String.data h
  rw [String.data_append, String.data_append, String.data_append, String.data_append] at hd
  exact str_data_inj (List.append_cancel_left hd)

theorem generate_cache_key_cons (url : String) (p : String × String) (ps : Params) :
    generate_cache_key url (some (p :: ps)) = url ++ "?" ++ param_str (p :: ps) := rfl

/-- An accessor `get_elements_with_cache(url, force_refresh)`; `Except`
models a Python call that may raise. -/
abbrev Accessor := String → Bool → Except String ElementMap

/-- The caller's browser context as probed by `get_cached_elements`: the two
`Option`s model `hasattr(context, 'cache_manager')` and
`hasattr(context, 'get_elements_with_cache')`. -/
structure Context where
  cache_manager : Option Accessor
  get_elements_with_cache : Option Accessor

/-- `get_cached_elements` of `llm_ui_tester.py`: prefer
`context.cache_manager.get_elements_with_cache`, fall back to
`context.get_elements_with_cache`, else log a warning and return the empty
dict; any raise from the invoked accessor is caught, logged and yields the
empty dict. -/
def get_cached_elements (ctx : Context) (url : String) (force_refresh : Bool) : ElementMap :=
  match ctx.cache_manager with
  | some acc =>
    match acc url force_refresh with
    | Except.ok m => m
    | Except.error _ => []
  | none =>
    match ctx.get_elements_with_cache with
    | some acc =>
      match acc url force_refresh with
      | Except.ok m => m
      | Except.error _ => []
    | none => []

/-- The one-element map of the spec scenario. -/
def demoRec : ElementRecord :=
  { tag_name := "input", xpath := "//input[1]", attributes := [("type", "text")]
    is_visible := true, is_interactive := true, is_in_viewport := true
    highlight_index := 0 }

def demoElems : ElementMap := [("0", demoRec)]

def demoElems2 : ElementMap :=
  [("0", demoRec), ("1", { demoRec with xpath := "//input[2]", highlight_index := 1 })]

/-- Store, evict with a faulted file removal, then read: the surviving
durable file repopulates the in-memory entry although its metadata is gone. -/
def faultTrace : List CacheOp :=
  [CacheOp.store "u" demoElems none 1 ⟨false, false⟩,
    CacheOp.clear (some "u") none ⟨false, true⟩ ⟨false, [], false⟩,
    CacheOp.read "u" none ⟨false⟩]

/-- Two unrelated keys populated, before evicting via the empty-string URL. -/
def crossState : ElementCache :=
  store_elements (store_elements initState "u" demoElems none 0 ⟨false, false⟩)
    "" demoElems (some [("a", "1")]) 0 ⟨false, false⟩

/-- C1, counterexample: after a single first write of one element, `info`
reports `version == 1`, not `version == 0` as the claim states
(`store_elements` computes previous-version-defaulting-to-0 plus 1). -/
theorem claim1_counterexample :
    (get_cache_info (store_elements initState "https://example.com" demoElems none 0
        ⟨false, false⟩) "https://example.com" none).map MetaRecord.version = some 1 ∧
    (get_cache_info (store_elements initState "https://example.com" demoElems none 0
        ⟨false, false⟩) "https://example.com" none).map MetaRecord.version ≠ some 0 ∧
    (get_cache_info (store_elements initState "https://example.com" demoElems none 0
        ⟨false, false⟩) "https://example.com" none).map MetaRecord.element_count = some 1 := by
  decide

/-- C1, amended: on every reachable state, a write stores a metadata record
whose `element_count` is the number of records written, whose `version` is 1
on the first write for that key and exactly the previous version plus 1 on
every subsequent write, and whose `timestamp` is at least the previous
record's timestamp. -/
theorem claim1_store_version (ops : List CacheOp) (url : String) (elements : ElementMap)
    (params : Option Params) (tick : Nat) (f : WriteFaults) :
    (store_elements (runOps ops) url elements params tick f).metadata.lookup
        (generate_cache_key url params) =
      some (storedMeta (runOps ops) url elements params tick) ∧
    (storedMeta (runOps ops) url elements params tick).element_count = elements.length ∧
    ((runOps ops).metadata.lookup (generate_cache_key url params) = none →
      (storedMeta (runOps ops) url elements params tick).version = 1) ∧
    (∀ m, (runOps ops).metadata.lookup (generate_cache_key url params) = some m →
      (storedMeta (runOps ops) url elements params tick).version = m.version + 1 ∧
      m.timestamp ≤ (storedMeta (runOps ops) url elements params tick).timestamp) := by
  refine ⟨?_, rfl, ?_, ?_⟩
  · rw [store_metadata_lookup]
    simp
  · intro h
    simp [storedMeta, h]
  · intro m hm
    refine ⟨by simp [storedMeta, hm], ?_⟩
    show m.timestamp ≤ (runOps ops).clock + tick
    exact le_trans (runOps_timeBounded ops _ m hm) (Nat.le_add_right _ _)

theorem claim1_witness :
    (store_elements (runOps [CacheOp.store "u" demoElems none 5 ⟨false, false⟩])
        "u" demoElems2 none 3 ⟨false, false⟩).metadata.lookup
        (generate_cache_key "u" none) =
      some (storedMeta (runOps [CacheOp.store "u" demoElems none 5 ⟨false, false⟩])
        "u" demoElems2 none 3) ∧
    (storedMeta (runOps [CacheOp.store "u" demoElems none 5 ⟨false, false⟩])
        "u" demoElems2 none 3).version = 1 + 1 ∧
    5 ≤ (storedMeta (runOps [CacheOp.store "u" demoElems none 5 ⟨false, false⟩])
        "u" demoElems2 none 3).timestamp := by
  have h := claim1_store_version [CacheOp.store "u" demoElems none 5 ⟨false, false⟩]
    "u" demoElems2 none 3 ⟨false, false⟩
  have hm := h.2.2.2 { url := "u", timestamp := 5, element_count := 1, version := 1 }
    (by decide)
  exact ⟨h.1, hm.1, hm.2⟩

/-- C2, counterexample: the claim's invariant is breakable through the
storage faults the source explicitly tolerates: after a store, an evict
whose `os.remove` fails, and a read, the in-memory entry for `"u"` exists
again while its metadata record does not. -/
theorem claim2_counterexample :
    ((runOps faultTrace).cache.lookup "u").isSome = true ∧
    (runOps faultTrace).metadata.lookup "u" = none := by
  decide

/-- C2, amended: in the absence of storage faults, after every sequence of
store, read, info and clear operations, a key has a metadata record iff it
has an in-memory entry, and iff it has a durable cache file. -/
theorem claim2_consistency (ops : List CacheOp)
    (hff : ∀ op ∈ ops, opFaultFree op = true) (k : String) :
    (((runOps ops).metadata.lookup k).isSome ↔ ((runOps ops).cache.lookup k).isSome) ∧
    (((runOps ops).metadata.lookup k).isSome ↔ ((runOps ops).files.lookup k).isSome) := by
  have h := foldl_consistent ops initState consistent_init hff k
  exact ⟨h.1.symm, h.2⟩

theorem claim2_witness :
    (((runOps [CacheOp.store "u" demoElems none 1 ⟨false, false⟩]).metadata.lookup
        "u").isSome ↔
      ((runOps [CacheOp.store "u" demoElems none 1 ⟨false, false⟩]).cache.lookup
        "u").isSome) ∧
    (((runOps [CacheOp.store "u" demoElems none 1 ⟨false, false⟩]).metadata.lookup
        "u").isSome ↔
      ((runOps [CacheOp.store "u" demoElems none 1 ⟨false, false⟩]).files.lookup
        "u").isSome) :=
  claim2_consistency [CacheOp.store "u" demoElems none 1 ⟨false, false⟩] (by decide) "u"

/-- C3: a write followed by a read of the same `(location, params)` returns
exactly the records written, and a second write fully replaces the first
record set, the subsequent read returning only the second set. -/
theorem claim3_write_read_roundtrip (s : ElementCache) (url : String)
    (e1 e2 : ElementMap) (params : Option Params) (t1 t2 : Nat)
    (f1 f2 : WriteFaults) (fr : ReadFault) :
    (get_elements (store_elements s url e2 params t2 f2) url params fr).1 = e2 ∧
    (get_elements (store_elements (store_elements s url e1 params t1 f1)
        url e2 params t2 f2) url params fr).1 = e2 := by
  constructor <;>
    exact get_elements_fst_hit _ _ _ _ _ (by rw [store_cache_lookup]; simp)

/-- C4, counterexample: two different parameter sets over the same base URL
can derive the same cache key when a value contains the separators: the set
difference witness `("b", "2")` is in the second set only, yet both derive
`"u?a=1&b=2"`. -/
theorem claim4_counterexample :
    generate_cache_key "u" (some [("a", "1&b=2")]) =
        generate_cache_key "u" (some [("a", "1"), ("b", "2")]) ∧
    ¬ (("b", "2") ∈ ([("a", "1&b=2")] : Params)) ∧
    ("b", "2") ∈ ([("a", "1"), ("b", "2")] : Params) := by
  decide

/-- C4, amended: key derivation depends only on the parameter set (any
permutation of the supplied pairs derives the same key), and for parameter
sets whose names contain neither `&` nor `=` and whose values contain no `&`
(with names unique, as in a Python dict), two keys over the same base are
equal exactly when the parameter sets are equal as sets of pairs. -/
theorem claim4_key_derivation :
    (∀ (url : String) (ps₁ ps₂ : Params), List.Perm ps₁ ps₂ →
        generate_cache_key url (some ps₁) = generate_cache_key url (some ps₂)) ∧
    (∀ (url : String) (ps₁ ps₂ : Params), (ps₁.map Prod.fst).Nodup →
        (ps₂.map Prod.fst).Nodup → CleanParams ps₁ → CleanParams ps₂ →
        (generate_cache_key url (some ps₁) = generate_cache_key url (some ps₂) ↔
          ∀ x, x ∈ ps₁ ↔ x ∈ ps₂)) := by
  constructor
  · intro url ps₁ ps₂ h
    cases ps₁ with
    | nil =>
      have h2 : ps₂ = [] := h.symm.eq_nil
      rw [h2]
    | cons p t =>
      cases ps₂ with
      | nil => exact absurd h.eq_nil (List.cons_ne_nil p t)
      | cons q t2 =>
        rw [generate_cache_key_cons, generate_cache_key_cons, param_str_congr_perm h]
  · intro url ps₁ ps₂ hn₁ hn₂ hc₁ hc₂
    have hnd₁ : ps₁.Nodup := List.Nodup.of_map _ hn₁
    have hnd₂ : ps₂.Nodup := List.Nodup.of_map _ hn₂
    rw [← List.perm_ext_iff_of_nodup hnd₁ hnd₂]
    cases ps₁ with
    | nil =>
      cases ps₂ with
      | nil => exact iff_of_true rfl (List.Perm.refl [])
      | cons q t2 =>
        apply iff_of_false
        · rw [show generate_cache_key url (some []) = url from rfl,
            generate_cache_key_cons]
          exact ne_append_param url _
        · intro hp
          exact absurd hp.symm.eq_nil (List.cons_ne_nil q t2)
    | cons p t =>
      cases ps₂ with
      | nil =>
        apply iff_of_false
        · rw [generate_cache_key_cons,
            show generate_cache_key url (some []) = url from rfl]
          exact (ne_append_param url _).symm
        · intro hp
          exact absurd hp.eq_nil (List.cons_ne_nil p t)
      | cons q t2 =>
        rw [generate_cache_key_cons, generate_cache_key_cons]
        constructor
        · intro h
          exact (param_str_eq_iff hc₁ hc₂).mp (append_param_inj h)
        · intro h
          rw [param_str_congr_perm h]

theorem claim4_witness :
    generate_cache_key "u" (some [("b", "2"), ("a", "1")]) =
      generate_cache_key "u" (some [("a", "1"), ("b", "2")]) :=
  claim4_key_derivation.1 "u" [("b", "2"), ("a", "1")] [("a", "1"), ("b", "2")] (by decide)

/-- C5: `get_elements` is total (never raises); when the derived key has
neither an in-memory entry nor a durable file it returns the empty map, and
a load fault on the durable file is likewise answered with the empty map. -/
theorem claim5_read_soft_miss (s : ElementCache) (url : String) (params : Option Params)
    (f : ReadFault) :
    (s.cache.lookup (generate_cache_key url params) = none →
      s.files.lookup (generate_cache_key url params) = none →
      (get_elements s url params f).1 = []) ∧
    (s.cache.lookup (generate_cache_key url params) = none → f.loadFails = true →
      (get_elements s url params f).1 = []) := by
  constructor
  · intro h1 h2
    simp [get_elements, h1, h2]
  · intro h1 h2
    rcases hfile : s.files.lookup (generate_cache_key url params) with _ | e
    · simp [get_elements, h1, hfile]
    · simp [get_elements, h1, hfile, h2]

theorem claim5_witness :
    (get_elements initState "u" none ⟨false⟩).1 = [] :=
  (claim5_read_soft_miss initState "u" none ⟨false⟩).1 rfl rfl

/-- C6: when persisting the entry file fails during a write, the in-memory
entry and the metadata record are still updated to the fresh data (no
rollback), the durable layer is left as it was, and no error escapes. -/
theorem claim6_persist_failure (s : ElementCache) (url : String) (e : ElementMap)
    (params : Option Params) (t : Nat) (mf : Bool) :
    (store_elements s url e params t ⟨mf, true⟩).cache.lookup
        (generate_cache_key url params) = some e ∧
    (store_elements s url e params t ⟨mf, true⟩).metadata.lookup
        (generate_cache_key url params) = some (storedMeta s url e params t) ∧
    (store_elements s url e params t ⟨mf, true⟩).files = s.files := by
  refine ⟨?_, ?_, store_files_fault s url e params t ⟨mf, true⟩ rfl⟩
  · rw [store_cache_lookup]
    simp
  · rw [store_metadata_lookup]
    simp

/-- C7: a fault-free evict removes both the in-memory entry and the metadata
record, so the subsequent read returns the empty map and `info` returns the
empty result; an evict whose key has no durable file completes and leaves
the durable layer untouched. -/
theorem claim7_evict (s : ElementCache) (u : String) (params : Option Params)
    (fk : EvictFaults) (fa : ClearAllFaults) (fr : ReadFault)
    (hk : fk.fileRemoveFails = false) (ha : fa.removeFails = []) :
    (get_elements (clear_cache s (some u) params fk fa) u params fr).1 = [] ∧
    get_cache_info (clear_cache s (some u) params fk fa) u params = none ∧
    (u ≠ "" → s.files.lookup (generate_cache_key u params) = none →
      (clear_cache s (some u) params fk fa).files = s.files) := by
  by_cases hu : u = ""
  · have hstate : clear_cache s (some u) params fk fa = clear_cache_all s fa := by
      rw [clear_cache]
      simp [hu]
    rw [hstate]
    refine ⟨?_, ?_, fun hne _ => absurd hu hne⟩
    · have hc : (clear_cache_all s fa).cache.lookup (generate_cache_key u params) = none := by
        rw [clear_all_cache]
        exact AList.lookup_empty _
      have hf2 : (clear_cache_all s fa).files.lookup (generate_cache_key u params) = none := by
        rw [clear_all_files_of_nil s fa ha]
        exact AList.lookup_empty _
      simp [get_elements, hc, hf2]
    · rw [get_cache_info, clear_all_metadata]
      exact AList.lookup_empty _
  · have hstate : clear_cache s (some u) params fk fa = clear_cache_key s u params fk := by
      rw [clear_cache]
      simp [hu]
    rw [hstate]
    refine ⟨?_, ?_, fun _ h => clear_key_files_of_none s u params fk h⟩
    · have hc : (clear_cache_key s u params fk).cache.lookup
          (generate_cache_key u params) = none := by
        rw [clear_key_cache_lookup]
        simp
      have hf2 : (clear_cache_key s u params fk).files.lookup
          (generate_cache_key u params) = none := by
        rw [clear_key_files_lookup s u params fk hk]
        simp
      simp [get_elements, hc, hf2]
    · rw [get_cache_info, clear_key_metadata_lookup]
      simp

theorem claim7_witness :
    (get_elements (clear_cache (store_elements initState "u" demoElems none 0
        ⟨false, false⟩) (some "u") none ⟨false, false⟩ ⟨false, [], false⟩)
      "u" none ⟨false⟩).1 = [] :=
  (claim7_evict (store_elements initState "u" demoElems none 0 ⟨false, false⟩) "u" none
    ⟨false, false⟩ ⟨false, [], false⟩ ⟨false⟩ rfl rfl).1

/-- C8: a fault-free clear-all discards the entire in-memory layer, leaves
`get_all_urls` empty, and leaves neither per-key durable files nor a
metadata file behind. -/
theorem claim8_clear_all (s : ElementCache) (fk : EvictFaults) (params : Option Params)
    (mf : Bool) :
    get_all_urls (clear_cache s none params fk ⟨mf, [], false⟩) = [] ∧
    (clear_cache s none params fk ⟨mf, [], false⟩).cache = ∅ ∧
    (clear_cache s none params fk ⟨mf, [], false⟩).metadata = ∅ ∧
    (clear_cache s none params fk ⟨mf, [], false⟩).files = ∅ ∧
    (clear_cache s none params fk ⟨mf, [], false⟩).metaFile = none :=
  ⟨rfl, rfl, rfl, clear_all_files_of_nil s ⟨mf, [], false⟩ rfl, rfl⟩

/-- C9: the cached-element accessor fails soft: with no `cache_manager` it
tries the alternate `get_elements_with_cache` path; when neither accessor
exists, or the invoked accessor raises, it returns the empty map instead of
raising; a successful alternate accessor's result is passed through. -/
theorem claim9_fail_soft (ctx : Context) (url : String) (force_refresh : Bool) :
    (ctx.cache_manager = none → ctx.get_elements_with_cache = none →
      get_cached_elements ctx url force_refresh = []) ∧
    (∀ acc msg, ctx.cache_manager = some acc →
      acc url force_refresh = Except.error msg →
      get_cached_elements ctx url force_refresh = []) ∧
    (∀ acc msg, ctx.cache_manager = none → ctx.get_elements_with_cache = some acc →
      acc url force_refresh = Except.error msg →
      get_cached_elements ctx url force_refresh = []) ∧
    (∀ acc m, ctx.cache_manager = none → ctx.get_elements_with_cache = some acc →
      acc url force_refresh = Except.ok m →
      get_cached_elements ctx url force_refresh = m) := by
  refine ⟨?_, ?_, ?_, ?_⟩
  · intro h1 h2
    simp [get_cached_elements, h1, h2]
  · intro acc msg h1 h2
    simp [get_cached_elements, h1, h2]
  · intro acc msg h1 h2 h3
    simp [get_cached_elements, h1, h2, h3]
  · intro acc m h1 h2 h3
    simp [get_cached_elements, h1, h2, h3]

theorem claim9_witness :
    get_cached_elements ⟨none, some (fun _ _ => Except.error "boom")⟩ "u" false = [] :=
  (claim9_fail_soft ⟨none, some (fun _ _ => Except.error "boom")⟩ "u" false).2.2.1
    (fun _ _ => Except.error "boom") "boom" rfl rfl rfl

/-- C10, counterexample: evicting the key derived from the empty-string URL
with parameters takes Python's falsy-`url` branch of `clear_cache` and wipes
the unrelated key `"u"` as well, although the two derived keys differ. -/
theorem claim10_counterexample :
    generate_cache_key "" (some [("a", "1")]) ≠ generate_cache_key "u" none ∧
    (crossState.cache.lookup (generate_cache_key "u" none)).isSome = true ∧
    (clear_cache crossState (some "") (some [("a", "1")]) ⟨false, false⟩
        ⟨false, [], false⟩).cache.lookup (generate_cache_key "u" none) = none ∧
    (clear_cache crossState (some "") (some [("a", "1")]) ⟨false, false⟩
        ⟨false, [], false⟩).metadata.lookup (generate_cache_key "u" none) = none := by
  decide

/-- C10, amended: for two pairs deriving different cache keys, a write to
the first and — provided its location string is non-empty — an eviction of
the first leave the second key's in-memory entry, metadata record and
durable file unchanged. -/
theorem claim10_frame (s : ElementCache) (u1 u2 : String) (p1 p2 : Option Params)
    (e : ElementMap) (t : Nat) (f : WriteFaults) (fk : EvictFaults) (fa : ClearAllFaults)
    (hne : generate_cache_key u2 p2 ≠ generate_cache_key u1 p1) :
    (store_elements s u1 e p1 t f).cache.lookup (generate_cache_key u2 p2) =
        s.cache.lookup (generate_cache_key u2 p2) ∧
    (store_elements s u1 e p1 t f).metadata.lookup (generate_cache_key u2 p2) =
        s.metadata.lookup (generate_cache_key u2 p2) ∧
    (store_elements s u1 e p1 t f).files.lookup (generate_cache_key u2 p2) =
        s.files.lookup (generate_cache_key u2 p2) ∧
    (u1 ≠ "" →
      (clear_cache s (some u1) p1 fk fa).cache.lookup (generate_cache_key u2 p2) =
          s.cache.lookup (generate_cache_key u2 p2) ∧
      (clear_cache s (some u1) p1 fk fa).metadata.lookup (generate_cache_key u2 p2) =
          s.metadata.lookup (generate_cache_key u2 p2) ∧
      (clear_cache s (some u1) p1 fk fa).files.lookup (generate_cache_key u2 p2) =
          s.files.lookup (generate_cache_key u2 p2)) := by
  refine ⟨?_, ?_, store_files_lookup_ne s u1 e p1 t f hne, ?_⟩
  · rw [store_cache_lookup]
    simp [hne]
  · rw [store_metadata_lookup]
    simp [hne]
  · intro hu
    have hstate : clear_cache s (some u1) p1 fk fa = clear_cache_key s u1 p1 fk := by
      rw [clear_cache]
      simp [hu]
    rw [hstate, clear_key_cache_lookup, clear_key_metadata_lookup]
    exact ⟨by simp [hne], by simp [hne], clear_key_files_lookup_ne s u1 p1 fk hne⟩

theorem claim10_witness :
    (store_elements initState "" demoElems (some [("a", "1")]) 0 ⟨false, false⟩).cache.lookup
        (generate_cache_key "u" none) =
      initState.cache.lookup (generate_cache_key "u" none) ∧
    (clear_cache initState (some "a") none ⟨false, false⟩ ⟨false, [], false⟩).metadata.lookup
        (generate_cache_key "u" none) =
      initState.metadata.lookup (generate_cache_key "u" none) :=
  ⟨(claim10_frame initState "" "u" (some [("a", "1")]) none demoElems 0 ⟨false, false⟩
      ⟨false, false⟩ ⟨false, [], false⟩ (by decide)).1,
    ((claim10_frame initState "a" "u" none none demoElems 0 ⟨false, false⟩ ⟨false, false⟩
      ⟨false, [], false⟩ (by decide)).2.2.2 (by decide)).2.1⟩

end BrowserCache
